import Mathlib

/-!
Verification of the `devp2p/crypto.py` module: ECIES encryption/decryption,
the concatenation KDF, the recoverable-signature codec, ECDSA verify, and the
key-generation retry loop.

Byte strings are modelled as `List Nat` (each element a byte value).
The hash primitives the source imports (`hashlib.sha256`, HMAC-SHA256) are
modelled concretely (FIPS 180-4 / RFC 2104), so KDF and MAC computations are
executable.  Elliptic-curve operations (`pyelliptic` ECDH, key generation,
`coincurve` recovery) and the AES-CTR cipher are external library services and
are passed as parameters, with their guaranteed properties (output lengths,
ECDH symmetry, CTR inversion) taken as hypotheses.
-/

set_option maxRecDepth 200000
set_option maxHeartbeats 4000000

/-- Decidable equality for `Except` results, so concrete decryption outcomes
can be checked by `decide`. -/
instance {ε α : Type} [DecidableEq ε] [DecidableEq α] :
    DecidableEq (Except ε α) := fun a b =>
  match a, b with
  | .error e, .error f =>
    if h : e = f then .isTrue (by rw [h]) else .isFalse (by simp [h])
  | .error _, .ok _ => .isFalse (by simp)
  | .ok _, .error _ => .isFalse (by simp)
  | .ok x, .ok y =>
    if h : x = y then .isTrue (by rw [h]) else .isFalse (by simp [h])

/-- Truncation to 32 bits, used after every 32-bit arithmetic step. -/
def m32 (x : Nat) : Nat := x % 4294967296

/-- Big-endian 4-byte encoding of a 32-bit word (`struct.pack('>I', n)`). -/
def be32 (n : Nat) : List Nat :=
  [(n >>> 24) % 256, (n >>> 16) % 256, (n >>> 8) % 256, n % 256]

/-- Big-endian 8-byte encoding of a 64-bit quantity (SHA-256 length field). -/
def be64 (n : Nat) : List Nat :=
  [(n >>> 56) % 256, (n >>> 48) % 256, (n >>> 40) % 256, (n >>> 32) % 256,
   (n >>> 24) % 256, (n >>> 16) % 256, (n >>> 8) % 256, n % 256]

/-- Big-endian base-256 interpretation of a byte string
(`bitcoin.decode(x, 256)`, also used to read 4-byte words in SHA-256). -/
def bcDecode256 (l : List Nat) : Nat := l.foldl (fun acc b => acc * 256 + b) 0

/-- Rotate a 32-bit word right by `n` positions (result reduced mod 2^32). -/
def rotr (n x : Nat) : Nat := ((x >>> n) ||| (x <<< (32 - n))) % 4294967296

/-- SHA-256 Ch function. -/
def shaCh (e f g : Nat) : Nat := (e &&& f) ^^^ ((e ^^^ 4294967295) &&& g)

/-- SHA-256 Maj function. -/
def shaMaj (a b c : Nat) : Nat := (a &&& b) ^^^ (a &&& c) ^^^ (b &&& c)

/-- SHA-256 big sigma 0. -/
def bsig0 (x : Nat) : Nat := rotr 2 x ^^^ rotr 13 x ^^^ rotr 22 x

/-- SHA-256 big sigma 1. -/
def bsig1 (x : Nat) : Nat := rotr 6 x ^^^ rotr 11 x ^^^ rotr 25 x

/-- SHA-256 small sigma 0. -/
def ssig0 (x : Nat) : Nat := rotr 7 x ^^^ rotr 18 x ^^^ (x >>> 3)

/-- SHA-256 small sigma 1. -/
def ssig1 (x : Nat) : Nat := rotr 17 x ^^^ rotr 19 x ^^^ (x >>> 10)

/-- The 64 SHA-256 round constants of FIPS 180-4, in decimal. -/
def shaK : List Nat :=
  [1116352408, 1899447441, 3049323471, 3921009573, 961987163,
   1508970993, 2453635748, 2870763221, 3624381080, 310598401,
   607225278, 1426881987, 1925078388, 2162078206, 2614888103,
   3248222580, 3835390401, 4022224774, 264347078, 604807628,
   770255983, 1249150122, 1555081692, 1996064986, 2554220882,
   2821834349, 2952996808, 3210313671, 3336571891, 3584528711,
   113926993, 338241895, 666307205, 773529912, 1294757372,
   1396182291, 1695183700, 1986661051, 2177026350, 2456956037,
   2730485921, 2820302411, 3259730800, 3345764771, 3516065817,
   3600352804, 4094571909, 275423344, 430227734, 506948616,
   659060556, 883997877, 958139571, 1322822218, 1537002063,
   1747873779, 1955562222, 2024104815, 2227730452, 2361852424,
   2428436474, 2756734187, 3204031479, 3329325298]

/-- The SHA-256 initial hash state of FIPS 180-4, in decimal. -/
def shaH0 : List Nat :=
  [1779033703, 3144134277, 1013904242, 2773480762,
   1359893119, 2600822924, 528734635, 1541459225]

/-- One SHA-256 compression round applied to the 8-word working state. -/
def roundStep (s : List Nat) (kw : Nat × Nat) : List Nat :=
  let a := s.getD 0 0
  let b := s.getD 1 0
  let c := s.getD 2 0
  let d := s.getD 3 0
  let e := s.getD 4 0
  let f := s.getD 5 0
  let g := s.getD 6 0
  let h := s.getD 7 0
  let t1 := m32 (h + bsig1 e + shaCh e f g + kw.1 + kw.2)
  let t2 := m32 (bsig0 a + shaMaj a b c)
  [m32 (t1 + t2), a, b, c, m32 (d + t1), e, f, g]

/-- Expand the 16 block words into the 64-entry SHA-256 message schedule. -/
def msgSchedule (ws : List Nat) : List Nat :=
  (List.range 48).foldl
    (fun w _ =>
      w ++ [m32 (ssig1 (w.getD (w.length - 2) 0) + w.getD (w.length - 7) 0 +
                 ssig0 (w.getD (w.length - 15) 0) + w.getD (w.length - 16) 0)])
    ws

/-- SHA-256 compression of one 64-byte block into the 8-word chaining state. -/
def sha256Compress (H : List Nat) (block : List Nat) : List Nat :=
  let ws := (List.range 16).map (fun i => bcDecode256 ((block.drop (4 * i)).take 4))
  let w := msgSchedule ws
  let st := (List.zip shaK w).foldl roundStep H
  List.zipWith (fun x y => m32 (x + y)) H st

/-- Split a byte string into 64-byte blocks.  The first argument is
structural-recursion fuel; `chunks64` supplies enough for the whole input. -/
def chunks64Go : Nat → List Nat → List (List Nat)
  | 0, _ => []
  | _, [] => []
  | fuel + 1, l => l.take 64 :: chunks64Go fuel (l.drop 64)

/-- Split a byte string into 64-byte blocks. -/
def chunks64 (l : List Nat) : List (List Nat) := chunks64Go l.length l

/-- SHA-256 padding: append 0x80, zeros to 56 mod 64, then the 64-bit
big-endian bit length. -/
def shaPad (msg : List Nat) : List Nat :=
  msg ++ 128 :: (List.replicate ((120 - ((msg.length + 1) % 64)) % 64) 0 ++
    be64 (8 * msg.length))

/-- SHA-256 of a byte string (the `hashlib.sha256(...).digest()` the source
uses), as 32 bytes. -/
def sha256 (msg : List Nat) : List Nat :=
  ((chunks64 (shaPad msg)).foldl sha256Compress shaH0).foldr
    (fun w acc => be32 w ++ acc) []

/-- HMAC-SHA256 (`pyelliptic.hmac_sha256`, i.e. RFC 2104 with a 64-byte
block). -/
def hmac_sha256 (key msg : List Nat) : List Nat :=
  let k0 := if 64 < key.length then sha256 key else key
  let kp := k0 ++ List.replicate (64 - k0.length) 0
  sha256 ((kp.map (fun b => b ^^^ 92)) ++ sha256 ((kp.map (fun b => b ^^^ 54)) ++ msg))

/-- The `while counter <= reps` loop of `eciesKDF` (crypto.py lines 278-285):
each iteration increments the counter and appends
`sha256(BE32(counter) ++ key_material)` (the trailing `s1` update is the empty
string).  The first argument is structural-recursion fuel; the loop runs
`reps + 1 - counter` iterations and `eciesKDF` supplies at least that much. -/
def kdfLoop (km : List Nat) (reps : Nat) : Nat → Nat → List Nat → List Nat
  | 0, _, key => key
  | fuel + 1, counter, key =>
    if counter ≤ reps then
      kdfLoop km reps fuel (counter + 1) (key ++ sha256 (be32 (counter + 1) ++ km))
    else key

/-- `eciesKDF(key_material, key_len)` (crypto.py lines 265-286):
`reps = ((key_len + 7) * 8) / (hash_blocksize * 8)` with `hash_blocksize = 64`,
then the counter loop, then truncation to `key_len` bytes. -/
def eciesKDF (key_material : List Nat) (key_len : Nat) : List Nat :=
  (kdfLoop key_material (((key_len + 7) * 8) / (64 * 8))
    (((key_len + 7) * 8) / (64 * 8) + 1) 0 []).take key_len

/-- Python-level failure kinds: `assert` failures, library `ValueError`s, and
the module's own `ECIESDecryptionError` (with its message). -/
inductive PyErr where
  | assertionError : PyErr
  | valueError : PyErr
  | eciesError : String → PyErr
deriving DecidableEq

/-- The cryptographic operations `ecies_decrypt` can invoke, recorded in
source order so that the verify-then-decrypt ordering is checkable. -/
inductive CryptoOp where
  | ecdhOp | kdfOp | shaOp | macOp | cipherOp
deriving DecidableEq

/-- `ECCx.ecies_encrypt(data, raw_pubkey, shared_mac_data)` (crypto.py lines
96-148), with the library services as parameters: `pub` maps a private key to
its raw 64-byte public key (`ephem.raw_pubkey`), `ecdh` is
`raw_get_ecdh_key(pubkey_x, pubkey_y)`, and `ctr k iv true d` is
`pyelliptic.Cipher(k, iv, 1, 'aes-128-ctr').ciphering(d)`.  The fresh
ephemeral key and IV, produced by the RNG in the source, are explicit
arguments. -/
def ecies_encrypt {σ : Type} (pub : σ → List Nat)
    (ecdh : σ → List Nat → List Nat → List Nat)
    (ctr : List Nat → List Nat → Bool → List Nat → List Nat)
    (ephem : σ) (iv data raw_pubkey shared_mac_data : List Nat) : List Nat :=
  let key_material := ecdh ephem (raw_pubkey.take 32) (raw_pubkey.drop 32)
  let key := eciesKDF key_material 32
  let key_enc := key.take 16
  let key_mac := sha256 (key.drop 16)
  let ephem_pubkey := pub ephem
  let ciphertext := ctr key_enc iv true data
  let msg := 4 :: (ephem_pubkey ++ iv ++ ciphertext)
  let tag := hmac_sha256 key_mac (msg.drop 65 ++ shared_mac_data)
  msg ++ tag

/-- `ECCx.ecies_decrypt(data, shared_mac_data)` (crypto.py lines 150-193),
including every `assert` on the path, paired with the list of cryptographic
operations performed before returning, in source order.  Slices follow Python
semantics: `data[:1]`, `data[1:65]`, `data[-32:]`, `data[65:-32]`,
`data[65:81]`, `data[81:-32]`. -/
def ecies_decrypt_traced {σ : Type}
    (ecdh : σ → List Nat → List Nat → List Nat)
    (ctr : List Nat → List Nat → Bool → List Nat → List Nat)
    (self : σ) (data shared_mac_data : List Nat) :
    Except PyErr (List Nat) × List CryptoOp :=
  if data.take 1 ≠ [4] then (.error (.eciesError "wrong ecies header"), [])
  else
    let sh := (data.drop 1).take 64
    let key_material := ecdh self (sh.take 32) (sh.drop 32)
    if key_material.length ≠ 32 then (.error .assertionError, [.ecdhOp])
    else
      let key := eciesKDF key_material 32
      if key.length ≠ 32 then (.error .assertionError, [.ecdhOp, .kdfOp])
      else
        let key_enc := key.take 16
        let key_mac := sha256 (key.drop 16)
        if key_mac.length ≠ 32 then
          (.error .assertionError, [.ecdhOp, .kdfOp, .shaOp])
        else
          let tag := data.drop (data.length - 32)
          if tag.length ≠ 32 then
            (.error .assertionError, [.ecdhOp, .kdfOp, .shaOp])
          else
            if hmac_sha256 key_mac
                ((data.drop 65).take (data.length - 97) ++ shared_mac_data) ≠ tag then
              (.error (.eciesError "Fail to verify data"),
               [.ecdhOp, .kdfOp, .shaOp, .macOp])
            else
              let iv := (data.drop 65).take 16
              if iv.length ≠ 16 then
                (.error .assertionError, [.ecdhOp, .kdfOp, .shaOp, .macOp])
              else
                let ciphertext := (data.drop 81).take (data.length - 113)
                if 1 + sh.length + iv.length + ciphertext.length + tag.length
                    ≠ data.length then
                  (.error .assertionError, [.ecdhOp, .kdfOp, .shaOp, .macOp])
                else
                  (.ok (ctr key_enc iv false ciphertext),
                   [.ecdhOp, .kdfOp, .shaOp, .macOp, .cipherOp])

/-- The value `ecies_decrypt` returns (or the exception it raises). -/
def ecies_decrypt {σ : Type}
    (ecdh : σ → List Nat → List Nat → List Nat)
    (ctr : List Nat → List Nat → Bool → List Nat → List Nat)
    (self : σ) (data shared_mac_data : List Nat) : Except PyErr (List Nat) :=
  (ecies_decrypt_traced ecdh ctr self data shared_mac_data).1

/-- `lzpad32(x)` (crypto.py lines 208-209): left-pad with zero bytes to 32. -/
def lzpad32 (x : List Nat) : List Nat := List.replicate (32 - x.length) 0 ++ x

/-- `bitcoin.encode(v, 256)`: minimal big-endian base-256 digits of `v`
(empty for 0).  The first argument is structural-recursion fuel;
`bcEncode256` supplies `v` itself, which bounds the digit count. -/
def bcEncode256Go : Nat → Nat → List Nat
  | 0, _ => []
  | fuel + 1, v =>
    if v = 0 then [] else bcEncode256Go fuel (v / 256) ++ [v % 256]

/-- `bitcoin.encode(v, 256)`: minimal big-endian base-256 digits of `v`. -/
def bcEncode256 (v : Nat) : List Nat := bcEncode256Go v v

/-- `_encode_sig(v, r, s)` (crypto.py lines 212-216): asserts `v in (27, 28)`
(`none` models the `AssertionError`), then
`lzpad32(encode(r,256)) + lzpad32(encode(s,256)) + chr(v - 27)`. -/
def encodeSig (v r s : Nat) : Option (List Nat) :=
  if v = 27 ∨ v = 28 then
    some (lzpad32 (bcEncode256 r) ++ lzpad32 (bcEncode256 s) ++ [v - 27])
  else none

/-- `_decode_sig(sig)` (crypto.py lines 219-220):
`(ord(sig[64]) + 27, decode(sig[0:32], 256), decode(sig[32:64], 256))`; the
only possible failure is the `IndexError` of `sig[64]` on input shorter than
65 bytes (`none`). -/
def decodeSig (sig : List Nat) : Option (Nat × Nat × Nat) :=
  match sig.get? 64 with
  | none => none
  | some b => some (b + 27, bcDecode256 (sig.take 32), bcDecode256 ((sig.drop 32).take 32))

/-- `ecdsa_verify(pubkey, signature, message)` (crypto.py lines 223-227):
asserts `len(pubkey) == 64`, calls
`PublicKey.from_signature_and_message(signature, message, hasher=None)` —
modelled by the parameter `recF`, which returns the recovered key's
uncompressed 65-byte encoding (`pk.format(compressed=False)`), or `none` when
the library raises on a malformed signature or failed recovery — and compares
the result with `b'\x04' + pubkey`.  There is no exception handler: a `none`
from the library propagates as an error. -/
def ecdsa_verify (recF : List Nat → List Nat → Option (List Nat))
    (pubkey signature message : List Nat) : Except PyErr Bool :=
  if pubkey.length ≠ 64 then .error .assertionError
  else
    match recF signature message with
    | none => .error .valueError
    | some pk => .ok (decide (pk = 4 :: pubkey))

/-- The acceptance test of the `ECCx.__init__` retry loop (crypto.py lines
42-58) for fresh generation (no caller-supplied key): the candidate
`(raw_privkey, raw_pubkey)` is accepted when the private key serializes to 32
bytes, passes `bitcoin.get_privkey_format` (the parameter `fmtOk`), and the
public key is 64 bytes; otherwise the `while True` loop continues. -/
def eccxAccept (fmtOk : List Nat → Bool) (c : List Nat × List Nat) : Bool :=
  c.1.length == 32 && fmtOk c.1 && c.2.length == 64

/-- `k` iterations of the fresh-generation `while True` loop, where `gen i` is
the candidate key pair produced by `pyelliptic.ECC.__init__` on attempt `i`:
returns the first accepted candidate, or `none` when the loop is still
running after `k` iterations.  For fresh generation the source has no exit
other than acceptance (the `raise` branch requires caller-supplied key
material). -/
def eccxGenAux (gen : Nat → List Nat × List Nat) (fmtOk : List Nat → Bool) :
    Nat → Nat → Option (List Nat × List Nat)
  | _, 0 => none
  | i, k + 1 =>
    if eccxAccept fmtOk (gen i) then some (gen i)
    else eccxGenAux gen fmtOk (i + 1) k

/-- Fresh key generation run for `k` loop iterations. -/
def eccxGen (gen : Nat → List Nat × List Nat) (fmtOk : List Nat → Bool)
    (k : Nat) : Option (List Nat × List Nat) :=
  eccxGenAux gen fmtOk 0 k

/-- Specification-side helper: the concatenation of `count` successive KDF
digest blocks `sha256(BE32(i) ++ km)` for `i = start, start+1, ...`. -/
def kdfBlocks (km : List Nat) : Nat → Nat → List Nat
  | 0, _ => []
  | count + 1, start => sha256 (be32 start ++ km) ++ kdfBlocks km count (start + 1)

theorem roundStep_length (s : List Nat) (kw : Nat × Nat) :
    (roundStep s kw).length = 8 := rfl

theorem foldl_roundStep_length (l : List (Nat × Nat)) :
    ∀ s : List Nat, s.length = 8 → (l.foldl roundStep s).length = 8 := by
  induction l with
  | nil => intro s h; exact h
  | cons x xs ih => intro s _; exact ih (roundStep s x) (roundStep_length s x)

theorem sha256Compress_length (H b : List Nat) (h : H.length = 8) :
    (sha256Compress H b).length = 8 := by
  unfold sha256Compress
  simp only [List.length_zipWith, h, foldl_roundStep_length _ _ h, Nat.min_self]

theorem foldl_compress_length (bs : List (List Nat)) :
    ∀ H : List Nat, H.length = 8 → (bs.foldl sha256Compress H).length = 8 := by
  induction bs with
  | nil => intro H h; exact h
  | cons b bs ih => intro H h; exact ih _ (sha256Compress_length H b h)

theorem foldr_be32_length (ws : List Nat) :
    (ws.foldr (fun w acc => be32 w ++ acc) []).length = 4 * ws.length := by
  induction ws with
  | nil => rfl
  | cons w ws ih =>
    simp only [List.foldr_cons, List.length_append, ih, List.length_cons]
    simp [be32]
    omega

/-- Every SHA-256 digest is 32 bytes. -/
theorem sha256_length (m : List Nat) : (sha256 m).length = 32 := by
  unfold sha256
  rw [foldr_be32_length, foldl_compress_length _ _ (by rfl)]

/-- Every HMAC-SHA256 tag is 32 bytes. -/
theorem hmac_sha256_length (k m : List Nat) : (hmac_sha256 k m).length = 32 := by
  unfold hmac_sha256
  exact sha256_length _

theorem kdfBlocks_length (km : List Nat) :
    ∀ count start, (kdfBlocks km count start).length = 32 * count := by
  intro count
  induction count with
  | zero => intro s; rfl
  | succ c ih =>
    intro s
    simp only [kdfBlocks, List.length_append, sha256_length, ih]
    omega

theorem kdfBlocks_split (km : List Nat) :
    ∀ a b start, kdfBlocks km (a + b) start =
      kdfBlocks km a start ++ kdfBlocks km b (start + a) := by
  intro a
  induction a with
  | zero => intro b s; simp [kdfBlocks]
  | succ a ih =>
    intro b s
    have h1 : a + 1 + b = (a + b) + 1 := by omega
    rw [h1]
    simp only [kdfBlocks, ih b (s + 1), List.append_assoc]
    have h2 : s + 1 + a = s + (a + 1) := by omega
    rw [h2]

/-- The KDF loop appends exactly `reps + 1 - counter` digest blocks, counters
`counter+1, ..., reps+1`, given sufficient fuel. -/
theorem kdfLoop_eq (km : List Nat) (reps : Nat) :
    ∀ fuel counter key, reps + 1 - counter ≤ fuel →
      kdfLoop km reps fuel counter key =
        key ++ kdfBlocks km (reps + 1 - counter) (counter + 1) := by
  intro fuel
  induction fuel with
  | zero =>
    intro counter key h
    have h0 : reps + 1 - counter = 0 := by omega
    rw [h0]
    simp [kdfLoop, kdfBlocks]
  | succ fuel ih =>
    intro counter key h
    by_cases hc : counter ≤ reps
    · rw [kdfLoop, if_pos hc, ih (counter + 1) _ (by omega)]
      have h1 : reps + 1 - counter = (reps + 1 - (counter + 1)) + 1 := by omega
      rw [h1]
      simp only [kdfBlocks, List.append_assoc]
    · rw [kdfLoop, if_neg hc]
      have h0 : reps + 1 - counter = 0 := by omega
      rw [h0]
      simp [kdfBlocks]

theorem eciesKDF_eq (secret : List Nat) (L : Nat) :
    eciesKDF secret L = (kdfBlocks secret ((L + 7) / 64 + 1) 1).take L := by
  unfold eciesKDF
  rw [kdfLoop_eq secret _ _ 0 [] (by omega)]
  have h : ((L + 7) * 8) / (64 * 8) = (L + 7) / 64 :=
    Nat.mul_div_mul_right _ _ (by omega)
  rw [h]
  simp

theorem eciesKDF_length (secret : List Nat) (L : Nat) :
    (eciesKDF secret L).length = min L (32 * ((L + 7) / 64 + 1)) := by
  rw [eciesKDF_eq]
  simp [kdfBlocks_length]

theorem eciesKDF_32_length (m : List Nat) : (eciesKDF m 32).length = 32 := by
  rw [eciesKDF_length]
  decide

/-- Trivial concrete instantiations of the external library services, used to
run the parameterized theorems on concrete inputs: all-zero 64-byte public
keys, a constant ECDH (which is trivially symmetric and 32 bytes long), and
the identity cipher (which, like any CTR keystream cipher, preserves length
and is its own inverse). -/
def dummyPub (_ : Nat) : List Nat := List.replicate 64 0

/-- Constant stand-in for `raw_get_ecdh_key`: always the 32-byte zero key. -/
def dummyEcdh (_ : Nat) (_ _ : List Nat) : List Nat := List.replicate 32 0

/-- Identity stand-in for the AES-128-CTR cipher service. -/
def dummyCtr (_ _ : List Nat) (_ : Bool) (d : List Nat) : List Nat := d

/-- Characterization of a successful `ecies_decrypt` run on a well-formed
message `0x04 ‖ E ‖ iv ‖ ct ‖ tag` whose MAC (over `iv ‖ ct ‖ sharedMacData`,
as the source computes it) matches: every assert passes, and the result is
the decrypted ciphertext together with the full operation trace. -/
theorem ecies_decrypt_ok_of {σ : Type}
    (ecdh : σ → List Nat → List Nat → List Nat)
    (ctr : List Nat → List Nat → Bool → List Nat → List Nat)
    (self : σ) (E ivv ct tg smd : List Nat)
    (hE : E.length = 64) (hiv : ivv.length = 16) (htg : tg.length = 32)
    (hkm : (ecdh self (E.take 32) (E.drop 32)).length = 32)
    (hmac : hmac_sha256
        (sha256 ((eciesKDF (ecdh self (E.take 32) (E.drop 32)) 32).drop 16))
        (ivv ++ ct ++ smd) = tg) :
    ecies_decrypt_traced ecdh ctr self ((4 : Nat) :: (E ++ (ivv ++ (ct ++ tg)))) smd =
      (.ok (ctr ((eciesKDF (ecdh self (E.take 32) (E.drop 32)) 32).take 16) ivv false ct),
       [.ecdhOp, .kdfOp, .shaOp, .macOp, .cipherOp]) := by
  set data := (4 : Nat) :: (E ++ (ivv ++ (ct ++ tg))) with hdata
  have hlen : data.length = 113 + ct.length := by
    simp [hdata, hE, hiv, htg]
    omega
  have h1 : data.take 1 = [4] := rfl
  have h2 : (data.drop 1).take 64 = E := by
    rw [hdata, List.drop_succ_cons, List.drop_zero, List.take_left' hE]
  have h4 : data.drop (data.length - 32) = tg := by
    have hsplit : data = ((4 : Nat) :: (E ++ (ivv ++ ct))) ++ tg := by
      simp [hdata, List.append_assoc]
    rw [hlen, hsplit, List.drop_left']
    simp [hE, hiv]
    omega
  have h5 : data.drop 65 = ivv ++ (ct ++ tg) := by
    rw [hdata, show (65 : Nat) = 64 + 1 from rfl, List.drop_succ_cons,
      List.drop_left' hE]
  have h6 : (data.drop 65).take (data.length - 97) = ivv ++ ct := by
    rw [h5, hlen, show 113 + ct.length - 97 = 16 + ct.length from by omega,
      show ivv ++ (ct ++ tg) = (ivv ++ ct) ++ tg from by simp [List.append_assoc],
      List.take_left' (by simp [hiv])]
  have h7 : (data.drop 65).take 16 = ivv := by
    rw [h5, List.take_left' hiv]
  have h8 : (data.drop 81).take (data.length - 113) = ct := by
    have hsplit : data = ((4 : Nat) :: (E ++ ivv)) ++ (ct ++ tg) := by
      simp [hdata, List.append_assoc]
    have hdrop : data.drop 81 = ct ++ tg := by
      rw [hsplit, List.drop_left']
      simp [hE, hiv]
    rw [hdrop, hlen, show 113 + ct.length - 113 = ct.length from by omega,
      List.take_left' rfl]
  have h6' : List.take (113 + ct.length - 97) (ivv ++ (ct ++ tg)) = ivv ++ ct := by
    rw [show 113 + ct.length - 97 = 16 + ct.length from by omega,
      show ivv ++ (ct ++ tg) = (ivv ++ ct) ++ tg from by simp [List.append_assoc],
      List.take_left' (by simp [hiv])]
  have h4' : List.drop (113 + ct.length - 32) data = tg := by rw [← hlen]; exact h4
  have h7' : List.take 16 (ivv ++ (ct ++ tg)) = ivv := List.take_left' hiv
  have h8' : List.take (113 + ct.length - 113) (List.drop 81 data) = ct := by
    rw [← hlen]; exact h8
  unfold ecies_decrypt_traced
  rw [if_neg (by rw [h1]; simp)]
  simp only [h2, h5, hlen, h4', h6', h7', h8', hkm, hmac, htg, hiv, hE,
    eciesKDF_32_length, sha256_length]
  rw [if_neg (by omega)]
  rw [if_neg (by omega)]
  rw [if_neg (by omega)]
  rw [if_neg (by omega)]
  rw [if_neg (by simp)]
  rw [if_neg (by omega)]
  rw [if_neg (by omega)]

/-- C1: for every plaintext `p` (including the empty byte string) and every
valid recipient key pair `K`, decrypting `ecies_encrypt(p, K.pub64)` with
`K`'s private key via `ecies_decrypt` (empty or equal `shared_mac_data` on
both sides) returns exactly `p`.  Validity of the key material and the
library-service guarantees appear as hypotheses: the ephemeral public key is
64 bytes, the IV is 16 bytes, ECDH outputs 32 bytes and agrees on
`(ephemeral.priv, K.pub)` vs `(K.priv, ephemeral.pub)`, and AES-CTR
decryption inverts encryption. -/
theorem C1_ecies_roundtrip {σ : Type} (pub : σ → List Nat)
    (ecdh : σ → List Nat → List Nat → List Nat)
    (ctr : List Nat → List Nat → Bool → List Nat → List Nat)
    (K eph : σ) (iv p smd : List Nat)
    (hpub : (pub eph).length = 64)
    (hiv : iv.length = 16)
    (hecdh : ∀ (s : σ) (x y : List Nat), (ecdh s x y).length = 32)
    (hsym : ecdh K ((pub eph).take 32) ((pub eph).drop 32) =
            ecdh eph ((pub K).take 32) ((pub K).drop 32))
    (hctrinv : ∀ k i d, ctr k i false (ctr k i true d) = d) :
    ecies_decrypt ecdh ctr K (ecies_encrypt pub ecdh ctr eph iv p (pub K) smd) smd
      = Except.ok p := by
  have hd : ∀ ct0 : List Nat,
      ((4 : Nat) :: (pub eph ++ iv ++ ct0)).drop 65 = iv ++ ct0 := by
    intro ct0
    rw [show (65 : Nat) = 64 + 1 from rfl, List.drop_succ_cons,
      show pub eph ++ iv ++ ct0 = pub eph ++ (iv ++ ct0) from by
        simp [List.append_assoc],
      List.drop_left' hpub]
  have henc : ecies_encrypt pub ecdh ctr eph iv p (pub K) smd =
      (4 : Nat) :: ((pub eph) ++ (iv ++
        ((ctr ((eciesKDF (ecdh eph ((pub K).take 32) ((pub K).drop 32)) 32).take 16)
            iv true p) ++
         (hmac_sha256
            (sha256 ((eciesKDF (ecdh eph ((pub K).take 32) ((pub K).drop 32)) 32).drop 16))
            ((iv ++ (ctr ((eciesKDF (ecdh eph ((pub K).take 32) ((pub K).drop 32)) 32).take 16)
                iv true p)) ++ smd))))) := by
    simp only [ecies_encrypt]
    rw [hd]
    simp [List.append_assoc]
  have hok := ecies_decrypt_ok_of ecdh ctr K (pub eph) iv
      (ctr ((eciesKDF (ecdh eph ((pub K).take 32) ((pub K).drop 32)) 32).take 16)
        iv true p)
      (hmac_sha256
        (sha256 ((eciesKDF (ecdh eph ((pub K).take 32) ((pub K).drop 32)) 32).drop 16))
        ((iv ++ (ctr ((eciesKDF (ecdh eph ((pub K).take 32) ((pub K).drop 32)) 32).take 16)
            iv true p)) ++ smd))
      smd hpub hiv (hmac_sha256_length _ _) (hecdh K _ _) (by rw [hsym])
  unfold ecies_decrypt
  rw [henc, hok]
  simp only []
  rw [hsym, hctrinv]

/-- Witness for C1 at concrete inputs: the trivial library services, the
plaintext `[1, 2, 3]`, and an all-zero 16-byte IV. -/
theorem C1_witness :
    ecies_decrypt dummyEcdh dummyCtr 0
      (ecies_encrypt dummyPub dummyEcdh dummyCtr 1 (List.replicate 16 0)
        [1, 2, 3] (dummyPub 0) []) [] = Except.ok [1, 2, 3] :=
  C1_ecies_roundtrip dummyPub dummyEcdh dummyCtr 0 1 (List.replicate 16 0)
    [1, 2, 3] [] (by decide) (by decide) (fun _ _ _ => rfl)
    (by decide) (fun _ _ _ => rfl)

/-- C4: for every input message whose first byte is not `0x04`,
`ecies_decrypt` raises `ECIESDecryptionError("wrong ecies header")`
immediately, with an empty operation trace: no ECDH, KDF, MAC, or cipher
computation is performed. -/
theorem C4_header_rejected_first {σ : Type}
    (ecdh : σ → List Nat → List Nat → List Nat)
    (ctr : List Nat → List Nat → Bool → List Nat → List Nat)
    (self : σ) (data smd : List Nat) (h : data.take 1 ≠ [4]) :
    ecies_decrypt_traced ecdh ctr self data smd =
      (Except.error (PyErr.eciesError "wrong ecies header"), []) := by
  unfold ecies_decrypt_traced
  rw [if_pos h]

/-- Witness for C4: a message starting with byte 5 is rejected with an empty
trace. -/
theorem C4_witness :
    ecies_decrypt_traced dummyEcdh dummyCtr 0 [5] [] =
      (Except.error (PyErr.eciesError "wrong ecies header"), []) :=
  C4_header_rejected_first dummyEcdh dummyCtr 0 [5] [] (by decide)

/-- C5 (amended): for a message with correct `0x04` header whose recomputed
HMAC-SHA256 tag over `IV ‖ ciphertext ‖ sharedMacData` (that is, over
`message[65:-32] ‖ sharedMacData` — the source, unlike the spec text, does
NOT include the ephemeral public key in the MAC input) differs from the
trailing 32-byte tag, `ecies_decrypt` raises
`ECIESDecryptionError("Fail to verify data")` and the AES-CTR cipher is never
invoked.  The message must be at least 32 bytes and ECDH must return 32
bytes, else an `assert` fails first (still without touching the cipher). -/
theorem C5_mac_mismatch_no_decrypt {σ : Type}
    (ecdh : σ → List Nat → List Nat → List Nat)
    (ctr : List Nat → List Nat → Bool → List Nat → List Nat)
    (self : σ) (data smd : List Nat)
    (hhdr : data.take 1 = [4])
    (hlen32 : 32 ≤ data.length)
    (hkm : (ecdh self (((data.drop 1).take 64).take 32)
        (((data.drop 1).take 64).drop 32)).length = 32)
    (hmm : hmac_sha256
        (sha256 ((eciesKDF (ecdh self (((data.drop 1).take 64).take 32)
            (((data.drop 1).take 64).drop 32)) 32).drop 16))
        ((data.drop 65).take (data.length - 97) ++ smd)
        ≠ data.drop (data.length - 32)) :
    ecies_decrypt_traced ecdh ctr self data smd =
      (Except.error (PyErr.eciesError "Fail to verify data"),
        [CryptoOp.ecdhOp, CryptoOp.kdfOp, CryptoOp.shaOp, CryptoOp.macOp]) ∧
    CryptoOp.cipherOp ∉ (ecies_decrypt_traced ecdh ctr self data smd).2 := by
  have hres : ecies_decrypt_traced ecdh ctr self data smd =
      (Except.error (PyErr.eciesError "Fail to verify data"),
        [CryptoOp.ecdhOp, CryptoOp.kdfOp, CryptoOp.shaOp, CryptoOp.macOp]) := by
    unfold ecies_decrypt_traced
    rw [if_neg (by rw [hhdr]; simp)]
    simp only [hkm, eciesKDF_32_length, sha256_length, List.length_drop]
    rw [if_neg (by omega)]
    rw [if_neg (by omega)]
    rw [if_neg (by omega)]
    rw [if_neg (by omega)]
    rw [if_pos hmm]
  exact ⟨hres, by rw [hres]; decide⟩

/-- The 16-byte KDF-derived MAC seed's hash used in the concrete examples:
`sha256` of bytes 16..31 of `eciesKDF(zero32, 32)`. -/
def exKeyMac : List Nat := sha256 ((eciesKDF (List.replicate 32 0) 32).drop 16)

/-- Concrete ephemeral-public-key field (64 bytes of value 1). -/
def exPubE : List Nat := List.replicate 64 1

/-- Concrete IV field (16 zero bytes). -/
def exIV : List Nat := List.replicate 16 0

/-- The tag the source computes for a 113-byte message with empty ciphertext:
HMAC over `IV ‖ ciphertext ‖ sharedMacData = IV`. -/
def exTagGood : List Nat := hmac_sha256 exKeyMac exIV

/-- A 113-byte ECIES message (empty plaintext) carrying the source-computed
tag. -/
def exMsg : List Nat := [4] ++ exPubE ++ exIV ++ exTagGood

/-- C5 counterexample: for `exMsg`, the tag recomputed the way the claim
states it — over `ephemeralPub64 ‖ IV ‖ ciphertext ‖ sharedMacData` — does
not match the message's trailing 32 bytes, yet `ecies_decrypt` succeeds
(returning the empty plaintext) rather than failing: the source MACs only
`message[65:-32] ‖ sharedMacData`. -/
theorem C5_counterexample :
    hmac_sha256
        (sha256 ((eciesKDF (dummyEcdh 0 (exPubE.take 32) (exPubE.drop 32)) 32).drop 16))
        (exPubE ++ exIV ++ [] ++ []) ≠ exMsg.drop (exMsg.length - 32) ∧
    ecies_decrypt dummyEcdh dummyCtr 0 exMsg [] = Except.ok [] := by
  constructor
  · decide
  · decide

/-- A 113-byte ECIES message whose trailing tag (all zeros) does not match
the HMAC the source computes. -/
def exMsgBad : List Nat := [4] ++ exPubE ++ exIV ++ List.replicate 32 0

/-- Witness for C5 at the concrete message `exMsgBad`. -/
theorem C5_witness :
    ecies_decrypt_traced dummyEcdh dummyCtr 0 exMsgBad [] =
      (Except.error (PyErr.eciesError "Fail to verify data"),
        [CryptoOp.ecdhOp, CryptoOp.kdfOp, CryptoOp.shaOp, CryptoOp.macOp]) ∧
    CryptoOp.cipherOp ∉ (ecies_decrypt_traced dummyEcdh dummyCtr 0 exMsgBad []).2 :=
  C5_mac_mismatch_no_decrypt dummyEcdh dummyCtr 0 exMsgBad []
    (by decide) (by decide) (by decide) (by decide)

/-- C10: whenever `ecies_decrypt` accepts a message (correct header byte,
matching MAC, all asserts passing), the message is at least 113 bytes long
and the returned plaintext has exactly `len(message) - 113` bytes, the
AES-CTR decryption of the region `message[81:-32]`. -/
theorem C10_decrypt_output_length {σ : Type}
    (ecdh : σ → List Nat → List Nat → List Nat)
    (ctr : List Nat → List Nat → Bool → List Nat → List Nat)
    (self : σ) (data smd pt : List Nat)
    (hctr : ∀ k i d, (ctr k i false d).length = d.length)
    (h : ecies_decrypt ecdh ctr self data smd = Except.ok pt) :
    113 ≤ data.length ∧ pt.length = data.length - 113 := by
  unfold ecies_decrypt ecies_decrypt_traced at h
  simp only [apply_ite Prod.fst] at h
  split at h
  · exact absurd h (by simp)
  split at h
  · exact absurd h (by simp)
  split at h
  · exact absurd h (by simp)
  split at h
  · exact absurd h (by simp)
  split at h
  · exact absurd h (by simp)
  split at h
  · exact absurd h (by simp)
  split at h
  · exact absurd h (by simp)
  split at h
  · exact absurd h (by simp)
  rw [Except.ok.injEq] at h
  subst h
  rw [hctr]
  simp only [List.length_take, List.length_drop] at *
  omega

/-- Witness for C10 at the concrete accepted message `exMsg` (113 bytes,
empty plaintext). -/
theorem C10_witness :
    113 ≤ exMsg.length ∧ ([] : List Nat).length = exMsg.length - 113 :=
  C10_decrypt_output_length dummyEcdh dummyCtr 0 exMsg [] []
    (fun _ _ _ => rfl) (by decide)

theorem bcDecode_append_singleton (xs : List Nat) (b : Nat) :
    bcDecode256 (xs ++ [b]) = bcDecode256 xs * 256 + b := by
  unfold bcDecode256
  rw [List.foldl_append]
  rfl

theorem bcDecode_replicate_zero_append (n : Nat) (x : List Nat) :
    bcDecode256 (List.replicate n 0 ++ x) = bcDecode256 x := by
  induction n with
  | zero => rfl
  | succ n ih =>
    rw [List.replicate_succ, List.cons_append]
    unfold bcDecode256 at ih ⊢
    rw [List.foldl_cons]
    simpa using ih

/-- Base-256 decode is a left inverse of minimal base-256 encode. -/
theorem bcEncodeGo_decode : ∀ fuel v, v ≤ fuel →
    bcDecode256 (bcEncode256Go fuel v) = v := by
  intro fuel
  induction fuel with
  | zero =>
    intro v h
    have hv : v = 0 := by omega
    subst hv
    rfl
  | succ fuel ih =>
    intro v h
    unfold bcEncode256Go
    by_cases hv : v = 0
    · rw [if_pos hv]; simp [bcDecode256, hv]
    · have hlt : v / 256 < v := Nat.div_lt_self (Nat.pos_of_ne_zero hv) (by omega)
      rw [if_neg hv, bcDecode_append_singleton, ih (v / 256) (by omega)]
      omega

theorem bcEncode256_decode (v : Nat) : bcDecode256 (bcEncode256 v) = v :=
  bcEncodeGo_decode v v (Nat.le_refl v)

/-- A value below `256^k` encodes to at most `k` digits. -/
theorem bcEncodeGo_length : ∀ fuel v k, v ≤ fuel → v < 256 ^ k →
    (bcEncode256Go fuel v).length ≤ k := by
  intro fuel
  induction fuel with
  | zero =>
    intro v k h _
    have hv : v = 0 := by omega
    subst hv
    simp [bcEncode256Go]
  | succ fuel ih =>
    intro v k h hk
    unfold bcEncode256Go
    by_cases hv : v = 0
    · rw [if_pos hv]; simp
    · rw [if_neg hv]
      have hkpos : 1 ≤ k := by
        by_contra hc
        have hk0 : k = 0 := by omega
        subst hk0
        simp at hk
        omega
      have hdiv : v / 256 < 256 ^ (k - 1) := by
        rw [Nat.div_lt_iff_lt_mul (by omega)]
        calc v < 256 ^ k := hk
          _ = 256 ^ (k - 1) * 256 := by
              rw [← Nat.pow_succ]
              congr 1
              omega
      have hlt : v / 256 < v := Nat.div_lt_self (Nat.pos_of_ne_zero hv) (by omega)
      have hlen := ih (v / 256) (k - 1) (by omega) hdiv
      simp only [List.length_append, List.length_cons, List.length_nil]
      omega

theorem lzpad32_length (x : List Nat) (h : x.length ≤ 32) :
    (lzpad32 x).length = 32 := by
  simp [lzpad32]
  omega

theorem bcDecode_lzpad32 (x : List Nat) :
    bcDecode256 (lzpad32 x) = bcDecode256 x :=
  bcDecode_replicate_zero_append _ _

/-- The byte-level anatomy of a 65-byte signature `A ‖ B ‖ [x]` with 32-byte
halves: its length, the byte at offset 64, and the two 32-byte slices. -/
theorem sig_slices (A B : List Nat) (x : Nat)
    (hA : A.length = 32) (hB : B.length = 32) :
    (A ++ B ++ [x]).length = 65 ∧
    (A ++ B ++ [x]).get? 64 = some x ∧
    (A ++ B ++ [x]).take 32 = A ∧
    ((A ++ B ++ [x]).drop 32).take 32 = B := by
  refine ⟨by simp [hA, hB], ?_, ?_, ?_⟩
  · rw [List.get?_eq_getElem?, List.getElem?_append_right (by simp [hA, hB])]
    simp [hA, hB]
  · rw [List.append_assoc, List.take_left' hA]
  · rw [List.append_assoc, List.drop_left' hA, List.take_left' hB]

/-- C7: for `v ∈ {27, 28}` and 256-bit `r`, `s`, the encoder succeeds with a
65-byte signature (`r` and `s` zero-left-padded to 32 bytes each, then one
indicator byte), and decoding it returns exactly `(v, r, s)`. -/
theorem C7_sig_codec_roundtrip (v r s : Nat) (hv : v = 27 ∨ v = 28)
    (hr : r < 256 ^ 32) (hs : s < 256 ^ 32) :
    ∃ sig, encodeSig v r s = some sig ∧ sig.length = 65 ∧
      decodeSig sig = some (v, r, s) := by
  have hA : (lzpad32 (bcEncode256 r)).length = 32 :=
    lzpad32_length _ (bcEncodeGo_length r r 32 (Nat.le_refl r) hr)
  have hB : (lzpad32 (bcEncode256 s)).length = 32 :=
    lzpad32_length _ (bcEncodeGo_length s s 32 (Nat.le_refl s) hs)
  obtain ⟨hlen, hget, htake, hdrop⟩ :=
    sig_slices (lzpad32 (bcEncode256 r)) (lzpad32 (bcEncode256 s)) (v - 27) hA hB
  refine ⟨lzpad32 (bcEncode256 r) ++ lzpad32 (bcEncode256 s) ++ [v - 27], ?_, hlen, ?_⟩
  · unfold encodeSig
    rw [if_pos hv]
  · unfold decodeSig
    rw [hget, htake, hdrop, bcDecode_lzpad32, bcDecode_lzpad32,
      bcEncode256_decode, bcEncode256_decode]
    rcases hv with h | h <;> subst h <;> rfl

/-- Witness for C7 at `(v, r, s) = (27, 2, 3)`. -/
theorem C7_witness :
    (encodeSig 27 2 3).map List.length = some 65 ∧
    (encodeSig 27 2 3).map decodeSig = some (some (27, 2, 3)) := by
  obtain ⟨sig, h1, h2, h3⟩ :=
    C7_sig_codec_roundtrip 27 2 3 (Or.inl rfl) (by decide) (by decide)
  rw [h1]
  simp [h2, h3]

/-- C6 counterexample: the signature encoded from `(v, r, s) = (27, 1, 1)`
carries byte `0` — which is neither 27 nor 28 — at offset 64, and decoding a
65-byte signature whose indicator byte is `5` does not fail: it returns
`(32, 0, 0)`. -/
theorem C6_counterexample :
    (encodeSig 27 1 1).map (fun sig => sig.getD 64 0) = some 0 ∧
    ¬ ((0 : Nat) = 27 ∨ (0 : Nat) = 28) ∧
    decodeSig (List.replicate 64 0 ++ [5]) = some (32, 0, 0) := by
  refine ⟨by decide, by decide, by decide⟩

/-- C6 (amended): the stored indicator byte at offset 64 is `v − 27`, which
lies in `{0, 1}` (not `{27, 28}`), and decoding performs no validation at
all: every 65-byte signature decodes successfully to
`(sig[64] + 27, BE(sig[0:32]), BE(sig[32:64]))`, whatever the stored byte. -/
theorem C6_indicator_encoding (v r s : Nat) (sig : List Nat)
    (hv : v = 27 ∨ v = 28) (hr : r < 256 ^ 32) (hs : s < 256 ^ 32)
    (henc : encodeSig v r s = some sig) :
    (sig.get? 64 = some (v - 27) ∧ (v - 27 = 0 ∨ v - 27 = 1)) ∧
    (∀ t : List Nat, t.length = 65 →
      decodeSig t = some (t.getD 64 0 + 27, bcDecode256 (t.take 32),
        bcDecode256 ((t.drop 32).take 32))) := by
  constructor
  · have hA : (lzpad32 (bcEncode256 r)).length = 32 :=
      lzpad32_length _ (bcEncodeGo_length r r 32 (Nat.le_refl r) hr)
    have hB : (lzpad32 (bcEncode256 s)).length = 32 :=
      lzpad32_length _ (bcEncodeGo_length s s 32 (Nat.le_refl s) hs)
    have hsig : lzpad32 (bcEncode256 r) ++ lzpad32 (bcEncode256 s) ++ [v - 27]
        = sig := by
      unfold encodeSig at henc
      rw [if_pos hv] at henc
      exact Option.some_injective _ henc
    obtain ⟨_, hget, _, _⟩ :=
      sig_slices (lzpad32 (bcEncode256 r)) (lzpad32 (bcEncode256 s)) (v - 27) hA hB
    rw [hsig] at hget
    exact ⟨hget, by rcases hv with h | h <;> omega⟩
  · intro t ht
    have h64 : 64 < t.length := by omega
    unfold decodeSig
    rw [List.get?_eq_getElem?, List.getElem?_eq_getElem h64]
    rw [List.getD_eq_getElem?_getD, List.getElem?_eq_getElem h64]
    rfl

/-- Witness for C6 at `(v, r, s) = (28, 1, 2)` and the 65-byte all-7 input
for the decoder. -/
theorem C6_witness :
    (lzpad32 (bcEncode256 1) ++ lzpad32 (bcEncode256 2) ++ [28 - 27]).get? 64
      = some (28 - 27) ∧
    decodeSig (List.replicate 65 7) =
      some ((List.replicate 65 7).getD 64 0 + 27,
        bcDecode256 ((List.replicate 65 7).take 32),
        bcDecode256 (((List.replicate 65 7).drop 32).take 32)) := by
  have h := C6_indicator_encoding 28 1 2
    (lzpad32 (bcEncode256 1) ++ lzpad32 (bcEncode256 2) ++ [28 - 27])
    (Or.inr rfl) (by decide) (by decide)
    (by unfold encodeSig; rw [if_pos (Or.inr rfl)])
  exact ⟨h.1.1, h.2 _ (by decide)⟩

/-- C3 counterexample: when the curve library's recovery fails — as
`coincurve.PublicKey.from_signature_and_message` does on a malformed
signature — `ecdsa_verify` has no handler: the error propagates instead of
becoming the result `false`. -/
theorem C3_counterexample :
    ecdsa_verify (fun _ _ => none) (List.replicate 64 0) [] []
      = Except.error PyErr.valueError ∧
    ecdsa_verify (fun _ _ => none) (List.replicate 64 0) [] []
      ≠ Except.ok false := by
  exact ⟨by decide, by decide⟩

/-- C3 (amended): for a 64-byte `pub64`, `ecdsa_verify` returns true iff the
recovered public key's uncompressed encoding equals `0x04 ‖ pub64` WHEN the
library's recovery succeeds; when recovery fails the exception propagates
(the result is an error), rather than degrading to `false`. -/
theorem C3_verify_behaviour (recF : List Nat → List Nat → Option (List Nat))
    (pubkey sig msg pk : List Nat) (hlen : pubkey.length = 64) :
    (recF sig msg = none →
      ecdsa_verify recF pubkey sig msg = Except.error PyErr.valueError) ∧
    (recF sig msg = some pk →
      (ecdsa_verify recF pubkey sig msg = Except.ok true ↔ pk = 4 :: pubkey)) := by
  unfold ecdsa_verify
  rw [if_neg (by omega)]
  constructor
  · intro h
    rw [h]
  · intro h
    rw [h]
    constructor
    · intro hok
      simp only [Except.ok.injEq] at hok
      exact of_decide_eq_true hok
    · intro he
      rw [he]
      simp

/-- Witness for C3: a recovery stub returning exactly `0x04 ‖ pub64` makes
`ecdsa_verify` return `ok true`. -/
theorem C3_witness :
    ecdsa_verify (fun _ _ => some (4 :: List.replicate 64 9))
      (List.replicate 64 9) [] [] = Except.ok true :=
  ((C3_verify_behaviour (fun _ _ => some (4 :: List.replicate 64 9))
      (List.replicate 64 9) [] [] (4 :: List.replicate 64 9)
      (by decide)).2 rfl).mpr rfl

/-- C8 (amended): the fresh-generation `while True` loop never returns an
invalid key — any candidate it returns is accepted by the validity test —
but it is NOT bounded: when every generated candidate is invalid the loop
never exits, at any iteration count.  The source has no fatal-abort path for
fresh generation (its `raise` branch requires caller-supplied key
material). -/
theorem C8_keygen_loop (gen : Nat → List Nat × List Nat) (fmtOk : List Nat → Bool) :
    (∀ i k c, eccxGenAux gen fmtOk i k = some c → eccxAccept fmtOk c = true) ∧
    ((∀ i, eccxAccept fmtOk (gen i) = false) →
      ∀ k, eccxGen gen fmtOk k = none) := by
  constructor
  · intro i k
    induction k generalizing i with
    | zero =>
      intro c h
      simp [eccxGenAux] at h
    | succ k ih =>
      intro c h
      unfold eccxGenAux at h
      by_cases hc : eccxAccept fmtOk (gen i) = true
      · rw [if_pos hc] at h
        injection h with h
        subst h
        exact hc
      · rw [if_neg hc] at h
        exact ih (i + 1) c h
  · intro hall
    have key : ∀ k i, eccxGenAux gen fmtOk i k = none := by
      intro k
      induction k with
      | zero => intro i; rfl
      | succ k ih =>
        intro i
        unfold eccxGenAux
        rw [if_neg (by rw [hall i]; simp)]
        exact ih (i + 1)
    intro k
    exact key k 0

/-- C8 counterexample: with a generator that always produces a 31-byte
private scalar (an always-invalid candidate), the loop has neither returned
a key nor aborted with an error after 1000 attempts — far beyond any
"reasonable bounded number of retries" — because the source's `while True`
loop for fresh generation has no fatal exit. -/
theorem C8_counterexample :
    eccxGen (fun _ => (List.replicate 31 0, List.replicate 64 0))
      (fun _ => true) 1000 = none := by
  decide

/-- Witness for C8: an always-invalid generator is still looping after 7
iterations, and a candidate actually returned by the loop passes the
validity test. -/
theorem C8_witness :
    eccxGen (fun _ => (List.replicate 31 2, List.replicate 64 2))
      (fun _ => true) 7 = none ∧
    eccxAccept (fun _ => true) (List.replicate 32 1, List.replicate 64 1) = true := by
  constructor
  · exact (C8_keygen_loop (fun _ => (List.replicate 31 2, List.replicate 64 2))
      (fun _ => true)).2 (fun i => rfl) 7
  · exact (C8_keygen_loop (fun _ => (List.replicate 32 1, List.replicate 64 1))
      (fun _ => true)).1 0 1 (List.replicate 32 1, List.replicate 64 1) (by decide)

/-- C2 counterexample: `eciesKDF(secret, 33)` returns 32 bytes, not 33.  The
block count `((33 + 7) * 8) / (64 * 8) + 1 = 1` uses the (SHA-256 message)
block size 64 even though each digest contributes only 32 bytes, so a single
32-byte digest is truncated to `min 33 32 = 32` bytes. -/
theorem C2_counterexample : (eciesKDF [0] 33).length ≠ 33 := by
  rw [eciesKDF_length]
  decide

/-- C2 (amended): for positive `outputLen`, `eciesKDF(secret, outputLen)` is
the concatenation of the digests `SHA256(BE32(i) ‖ secret)` for
`i = 1, ..., (outputLen + 7) / 64 + 1`, truncated to `outputLen`; its length
is `min outputLen (32 * ((outputLen + 7) / 64 + 1))` — equal to `outputLen`
exactly when enough digest bytes exist (e.g. for `outputLen ≤ 32`), and
SHORTER than `outputLen` otherwise (e.g. for `33 ≤ outputLen ≤ 56`). -/
theorem C2_kdf_structure (secret : List Nat) (L : Nat) (_h : 0 < L) :
    eciesKDF secret L = (kdfBlocks secret ((L + 7) / 64 + 1) 1).take L ∧
    (eciesKDF secret L).length = min L (32 * ((L + 7) / 64 + 1)) :=
  ⟨eciesKDF_eq secret L, eciesKDF_length secret L⟩

/-- Witness for C2 at `secret = [1]`, `outputLen = 32` (the module's own use
of the KDF). -/
theorem C2_witness :
    eciesKDF [1] 32 = (kdfBlocks [1] ((32 + 7) / 64 + 1) 1).take 32 ∧
    (eciesKDF [1] 32).length = min 32 (32 * ((32 + 7) / 64 + 1)) :=
  C2_kdf_structure [1] 32 (by decide)

/-- C9 counterexample: prefix stability fails at `m = 33 < n = 64`:
`kdf(s, 64)` has 64 bytes so its 33-byte prefix has 33 bytes, while
`kdf(s, 33)` has only 32 bytes — the two sides differ. -/
theorem C9_counterexample : (eciesKDF [] 64).take 33 ≠ eciesKDF [] 33 := by
  intro h
  have h2 := congrArg List.length h
  rw [List.length_take, eciesKDF_length, eciesKDF_length] at h2
  omega

/-- C9 (amended): `kdf(s, n)[:m] = kdf(s, m)` for `m < n` PROVIDED the block
count for `m` supplies at least `m` bytes, i.e.
`m ≤ 32 * ((m + 7) / 64 + 1)` (in particular for every `m ≤ 32`); without
that proviso `kdf(s, m)` is shorter than `m` bytes and the equation fails. -/
theorem C9_kdf_prefix (s : List Nat) (m n : Nat) (hmn : m < n)
    (hm : m ≤ 32 * ((m + 7) / 64 + 1)) :
    (eciesKDF s n).take m = eciesKDF s m := by
  rw [eciesKDF_eq, eciesKDF_eq, List.take_take, Nat.min_eq_left (Nat.le_of_lt hmn)]
  have hB : (m + 7) / 64 + 1 ≤ (n + 7) / 64 + 1 :=
    Nat.add_le_add_right (Nat.div_le_div_right (by omega)) 1
  obtain ⟨d, hd⟩ := Nat.exists_eq_add_of_le hB
  rw [hd, kdfBlocks_split]
  rw [List.take_append_of_le_length (by rw [kdfBlocks_length]; exact hm)]

/-- Witness for C9 at `m = 16 < n = 32`. -/
theorem C9_witness : (eciesKDF [2] 32).take 16 = eciesKDF [2] 16 :=
  C9_kdf_prefix [2] 16 32 (by decide) (by decide)
